import Mathlib

/-!
Shallow embedding of `src/hardware/keithley.py` (class `Keithley`, the
acquisition controller of the ItMakesCoffee repository).

Modelling conventions:
* Python floats are embedded as `PyF`: a finite rational, or the IEEE
  non-finite results `inf` / `nan`.  The two signed infinities are collapsed
  into one `inf` constructor because the source applies `abs` to every
  quantity that can become infinite before storing it.
* numpy arrays become `List PyF` (resp. `List ℚ` for the precomputed
  voltage sequence); `np.linspace` is embedded by `linspace` below and
  `np.zeros_like` by `List.replicate`.
* The instrument (`pymeasure` `Keithley2400` plus the VISA transport) is an
  external collaborator; it is abstracted as `Instr`: a flag saying whether
  opening the connection succeeds, and the readings (mean voltage, mean
  current, std current) plus the wall clock, indexed by repetition and
  point.  Pure timing calls (`time.sleep`) have no observable effect in the
  embedding and are elided.
* Qt signal emissions (`update`, `save`, `to_log`) and the two resource
  actions we must count (thread spawn, `sourcemeter.shutdown()`) become an
  explicit event trace (`Event`).
* The background thread is embedded as a pure function of the controller
  state.  Stop requests coming from `close()` on the caller thread are
  injected through a schedule `stopReq : Nat → Bool`: `stopReq r = true`
  means a stop request lands during repetition `r`, so `is_run` is `false`
  from the end of repetition `r` onwards.  This is faithful because the
  source's repetition / point loops never read `is_run`; only the outer
  `while self.is_run` check does.
-/

/-- A Python float as it occurs in this program: finite, infinite (sign
collapsed, see module comment) or NaN. -/
inductive PyF where
  | fin (q : ℚ)
  | inf
  | nan
deriving DecidableEq

/-- IEEE division on the embedded floats; `fin a / fin 0` is `inf` (for
`a ≠ 0`) or `nan` (for `0/0`), matching numpy float64 division. -/
def PyF.divPF : PyF → PyF → PyF
  | .fin a, .fin b => if b = 0 then (if a = 0 then .nan else .inf) else .fin (a / b)
  | .nan, _ => .nan
  | _, .nan => .nan
  | .inf, .inf => .nan
  | .inf, .fin _ => .inf
  | .fin _, .inf => .fin 0

/-- IEEE multiplication on the embedded floats. -/
def PyF.mulPF : PyF → PyF → PyF
  | .fin a, .fin b => .fin (a * b)
  | .nan, _ => .nan
  | _, .nan => .nan
  | .inf, .fin b => if b = 0 then .nan else .inf
  | .fin a, .inf => if a = 0 then .nan else .inf
  | .inf, .inf => .inf

/-- `abs` on the embedded floats. -/
def PyF.absPF : PyF → PyF
  | .fin a => .fin |a|
  | .inf => .inf
  | .nan => .nan

/-- Is the value an ordinary (finite) float? -/
def PyF.isFinite : PyF → Bool
  | .fin _ => true
  | _ => false

/-- `np.linspace(a, b, num)`: `num` evenly spaced samples from `a` to `b`
inclusive; `num = 1` yields `[a]`, `num = 0` yields `[]`. -/
def linspace (a b : ℚ) (num : Nat) : List ℚ :=
  if num = 0 then []
  else if num = 1 then [a]
  else (List.range num).map (fun i : Nat => a + (b - a) * (i : ℚ) / ((num : ℚ) - 1))

/-- Observable actions of the controller: the three Qt signals
(`update`, `save`, `to_log`), the spawn of the background thread, and the
`sourcemeter.shutdown()` call. -/
inductive Event where
  | update (dp : Nat)
  | save (repetition : Nat)
  | log (msg : String)
  | spawn
  | shutdown
deriving DecidableEq

/-- The external instrument collaborator (`Keithley2400` over VISA):
whether opening the connection succeeds, and the readings/wall clock at
repetition `r`, point `dp`. -/
structure Instr where
  connect_ok : Bool
  clock : Nat → Nat → ℚ
  mean_voltage : Nat → Nat → ℚ
  mean_current : Nat → Nat → ℚ
  std_current : Nat → Nat → ℚ

/-- State of the `Keithley` controller object (`Keithley.__init__`
fields).  `gpib_thread` and `sourcemeter` model the `None`-or-not status
of the corresponding Python attributes. -/
structure Keithley where
  gpib_port : String
  n_data_points : Nat
  averages : Nat
  repetitions : Nat
  repetition_delay : ℚ
  delay : ℚ
  max_voltage : ℚ
  min_voltage : ℚ
  compliance_current : ℚ
  voltages_set : List ℚ
  times : List PyF
  voltages : List PyF
  currents : List PyF
  currents_std : List PyF
  resistances : List PyF
  powers : List PyF
  is_run : Bool
  is_receiving : Bool
  gpib_thread : Bool
  sourcemeter : Bool

/-- `Keithley.__init__`: stores the parameters, precomputes
`voltages_set = np.linspace(min_voltage, max_voltage, n_data_points)` and
allocates the six all-zero sample arrays with `np.zeros_like`. -/
def Keithley.init (gpib_port : String) (n_data_points averages repetitions : Nat)
    (repetition_delay delay min_voltage max_voltage compliance_current : ℚ) : Keithley :=
  let vs := linspace min_voltage max_voltage n_data_points
  { gpib_port := gpib_port
    n_data_points := n_data_points
    averages := averages
    repetitions := repetitions
    repetition_delay := repetition_delay
    delay := delay
    max_voltage := max_voltage
    min_voltage := min_voltage
    compliance_current := compliance_current
    voltages_set := vs
    times := List.replicate vs.length (PyF.fin 0)
    voltages := List.replicate vs.length (PyF.fin 0)
    currents := List.replicate vs.length (PyF.fin 0)
    currents_std := List.replicate vs.length (PyF.fin 0)
    resistances := List.replicate vs.length (PyF.fin 0)
    powers := List.replicate vs.length (PyF.fin 0)
    is_run := true
    is_receiving := false
    gpib_thread := false
    sourcemeter := false }

/-- Log text emitted at the top of `config_keithley`. -/
def tryingMsg (p : String) : String :=
  "<span style=\" color:#000000;\" >Trying to connect to: " ++ p ++ ".</span>"

/-- Log text on successful connection. -/
def connectedMsg (p : String) : String :=
  "<span style=\" color:#32cd32;\" >Connected to " ++ p ++ ".</span>"

/-- Log text on `pyvisa.errors.VisaIOError` during connection. -/
def failedMsg (p : String) : String :=
  "<span style=\" color:#ff0000;\" >Failed to connect with " ++ p ++ ".</span>"

/-- Log text of `save`-adjacent per-repetition message. -/
def finishedCurveMsg (r : Nat) : String :=
  "<span style=\" color:#1e90ff;\" >Finished curve #" ++ toString (r + 1) ++ "</span>"

/-- Log text after the last repetition. -/
def finishedScanMsg : String :=
  "<span style=\" color:#32cd32;\" >Finished IV scan.</span>"

/-- Log text emitted by `close` in non-dummy mode. -/
def disconnectedMsg : String :=
  "<span style=\" color:#000000;\" >Disconnected Keithley...</span>"

/-- `Keithley.config_keithley(**kwargs)`.  `ka` / `kc` model the optional
`averages` / `compliance_current` keyword arguments.  In dummy mode it
returns after the first log line; on `VisaIOError` (modelled by
`instr.connect_ok = false`) it logs the failure, sets `gpib_port` to
`'dummy'` and returns; on success it performs the instrument side
configuration (reset, front terminals, compliance, measure mode, buffer,
enable source — instrument-side, no controller state) and stores the
`averages` keyword into `self.averages`. -/
def Keithley.config_keithley (instr : Instr) (ka : Option Nat) (kc : Option ℚ)
    (st : Keithley) : Keithley × List Event :=
  let e0 := Event.log (tryingMsg st.gpib_port)
  if st.gpib_port = "dummy" then
    (st, [e0])
  else if instr.connect_ok then
    -- sourcemeter.reset / use_front_terminals / compliance_current :=
    -- kwargs.get('compliance_current', self.compliance_current) /
    -- measure_current / time.sleep(0.1) / config_buffer / enable_source
    -- act on the instrument only; `kc` therefore has no controller effect.
    let _ := kc
    ({ st with sourcemeter := true, averages := ka.getD st.averages },
     [e0, Event.log (connectedMsg st.gpib_port)])
  else
    ({ st with gpib_port := "dummy" },
     [e0, Event.log (failedMsg st.gpib_port)])

/-- `Keithley.read_keithley_start`: sets the flags and, when no thread
exists yet, spawns the background thread (the subsequent busy-wait on
`is_receiving` is pure blocking and has no state effect). -/
def Keithley.read_keithley_start (st : Keithley) : Keithley × List Event :=
  let st1 := { st with is_run := true, is_receiving := false }
  if st1.gpib_thread then (st1, [])
  else ({ st1 with gpib_thread := true }, [Event.spawn])

/-- `Keithley.close`: clears `is_run`, joins the thread (blocking only —
no state effect; joining an already finished thread is a no-op), then,
unless in dummy mode, shuts the instrument down and logs the disconnect.
Note the shutdown branch is NOT guarded by any "already closed" flag. -/
def Keithley.close (st : Keithley) : Keithley × List Event :=
  let st1 := { st with is_run := false }
  if st1.gpib_port = "dummy" then (st1, [])
  else (st1, [Event.shutdown, Event.log (disconnectedMsg)])

/-- Runs `g` once for every element of the index list, threading the state
and concatenating the event traces — the embedding of a Python
`for i in range(n):` loop whose body is `g`. -/
def runSteps (g : Keithley → Nat → Keithley × List Event) :
    Keithley → List Nat → Keithley × List Event
  | st, [] => (st, [])
  | st, i :: is =>
      let p1 := g st i
      let p2 := runSteps g p1.1 is
      (p2.1, p1.2 ++ p2.2)

/-- One iteration of the inner `for dp in range(self.n_data_points):` loop
of `background_thread` at repetition `r`: instrument writes/waits, then the
six buffer writes at index `dp`, the `update` emission and
`is_receiving = True`. -/
def Keithley.measurePoint (instr : Instr) (r : Nat) (st : Keithley) (dp : Nat) :
    Keithley × List Event :=
  -- adapter.write(":TRAC:FEED:CONT NEXT;"), source_voltage :=
  -- voltages_set[dp], time.sleep(delay), start_buffer, wait_for_buffer:
  -- instrument-side only.
  let t := instr.clock r dp
  let v := instr.mean_voltage r dp
  let c := - instr.mean_current r dp
  let sd := instr.std_current r dp
  let times := st.times.set dp (PyF.fin t)
  let voltages := st.voltages.set dp (PyF.fin v)
  let currents := st.currents.set dp (PyF.fin c)
  let currents_std := st.currents_std.set dp (PyF.fin sd)
  let resistances :=
    st.resistances.set dp (((voltages.getD dp PyF.nan).divPF (currents.getD dp PyF.nan)).absPF)
  let powers :=
    st.powers.set dp (((voltages.getD dp PyF.nan).mulPF (currents.getD dp PyF.nan)).absPF)
  ({ st with times := times, voltages := voltages, currents := currents,
             currents_std := currents_std, resistances := resistances, powers := powers,
             is_receiving := true },
   [Event.update dp])

/-- The full inner point loop of one real-mode repetition (the final
`sourcemeter.source_voltage = 0` is instrument-side only). -/
def Keithley.sweepPoints (instr : Instr) (r : Nat) (st : Keithley) :
    Keithley × List Event :=
  runSteps (Keithley.measurePoint instr r) st (List.range st.n_data_points)

/-- Events emitted after each repetition body: `save.emit(repetition)`,
the "Finished curve" log and — after the last repetition — the "Finished
IV scan." log (between repetitions the source sleeps instead; note
`repetitions ≥ 1` whenever this runs, so Nat subtraction is exact). -/
def Keithley.repTail (st : Keithley) (r : Nat) : List Event :=
  [Event.save r, Event.log (finishedCurveMsg r)] ++
    (if r < st.repetitions - 1 then [] else [Event.log (finishedScanMsg)])

/-- One iteration of `for repetition in range(self.repetitions):`: the
dummy branch merely sets `is_receiving`; the real branch runs the point
loop.  `stopReq r = true` injects a caller-side `close()` during this
repetition, clearing `is_run`; the loop body itself never reads `is_run`. -/
def Keithley.repStep (instr : Instr) (stopReq : Nat → Bool) (st : Keithley) (r : Nat) :
    Keithley × List Event :=
  let p1 :=
    if st.gpib_port = "dummy" then ({ st with is_receiving := true }, ([] : List Event))
    else Keithley.sweepPoints instr r st
  let evs := p1.2 ++ Keithley.repTail p1.1 r
  let st2 := if stopReq r then { p1.1 with is_run := false } else p1.1
  (st2, evs)

/-- The whole repetition loop of `background_thread`. -/
def Keithley.bgPass (instr : Instr) (stopReq : Nat → Bool) (st : Keithley) :
    Keithley × List Event :=
  runSteps (Keithley.repStep instr stopReq) st (List.range st.repetitions)

/-- `Keithley.background_thread`: after `time.sleep(1.0)` (elided) it calls
`config_keithley()` with no kwargs, then runs `while self.is_run:` around
the repetition loop.  The loop body unconditionally ends with
`self.is_run = False`, and the modelled stop requests only ever clear the
flag, so the `while` body executes at most once. -/
def Keithley.background_thread (instr : Instr) (stopReq : Nat → Bool) (st0 : Keithley) :
    Keithley × List Event :=
  let p1 := Keithley.config_keithley instr none none st0
  if p1.1.is_run then
    let p2 := Keithley.bgPass instr stopReq p1.1
    ({ p2.1 with is_run := false }, p1.2 ++ p2.2)
  else
    (p1.1, p1.2)

/-- A caller-visible operation on the controller. `bg` is the execution of
the spawned background thread under stop schedule `stopReq`. -/
inductive Op where
  | config (ka : Option Nat) (kc : Option ℚ)
  | start
  | close
  | bg (stopReq : Nat → Bool)

/-- Dispatch one operation. -/
def applyOp (instr : Instr) (st : Keithley) : Op → Keithley × List Event
  | .config ka kc => Keithley.config_keithley instr ka kc st
  | .start => Keithley.read_keithley_start st
  | .close => Keithley.close st
  | .bg stopReq => Keithley.background_thread instr stopReq st

/-- Run a sequence of operations from a state, collecting all events. -/
def runOps (instr : Instr) : Keithley → List Op → Keithley × List Event
  | st, [] => (st, [])
  | st, op :: ops =>
      let p1 := applyOp instr st op
      let p2 := runOps instr p1.1 ops
      (p2.1, p1.2 ++ p2.2)

/-- The repetition index carried by a `save` event, if any. -/
def saveIdx : Event → Option Nat
  | .save r => some r
  | _ => none

/-- The point index carried by an `update` event, if any. -/
def updIdx : Event → Option Nat
  | .update dp => some dp
  | _ => none

/-- The `save.emit` (repetition-complete) payloads of a trace, in order. -/
def savesOf (es : List Event) : List Nat := es.filterMap saveIdx

/-- The `update.emit` (per-point progress) payloads of a trace, in order. -/
def updatesOf (es : List Event) : List Nat := es.filterMap updIdx

/-- Is the event a thread spawn? -/
def isSpawn : Event → Bool
  | .spawn => true
  | _ => false

/-- Is the event an instrument shutdown? -/
def isShutdown : Event → Bool
  | .shutdown => true
  | _ => false

/-- Number of background threads spawned in a trace. -/
def spawnCount (es : List Event) : Nat := es.countP isSpawn

/-- Number of `sourcemeter.shutdown()` calls in a trace. -/
def shutdownCount (es : List Event) : Nat := es.countP isShutdown

/-! ### Generic lemmas about the loop runner -/

theorem runSteps_filterMap_single (g : Keithley → Nat → Keithley × List Event)
    (F : Event → Option Nat) :
    ∀ (l : List Nat) (st : Keithley),
      (∀ s i, i ∈ l → (g s i).2.filterMap F = [i]) →
      (runSteps g st l).2.filterMap F = l
  | [], _, _ => rfl
  | i :: is, st, h => by
      have h1 := h st i (List.mem_cons_self i is)
      have h2 := runSteps_filterMap_single g F is (g st i).1
        (fun s j hj => h s j (List.mem_cons_of_mem i hj))
      simp only [runSteps, List.filterMap_append, h1, h2]
      rfl

theorem runSteps_filterMap_none (g : Keithley → Nat → Keithley × List Event)
    (F : Event → Option Nat) :
    ∀ (l : List Nat) (st : Keithley),
      (∀ s i, i ∈ l → (g s i).2.filterMap F = []) →
      (runSteps g st l).2.filterMap F = []
  | [], _, _ => rfl
  | i :: is, st, h => by
      have h1 := h st i (List.mem_cons_self i is)
      have h2 := runSteps_filterMap_none g F is (g st i).1
        (fun s j hj => h s j (List.mem_cons_of_mem i hj))
      simp only [runSteps, List.filterMap_append, h1, h2]
      rfl

theorem runSteps_inv_all (g : Keithley → Nat → Keithley × List Event)
    (P : Keithley → Prop) (Q : Event → Bool) :
    ∀ (l : List Nat) (st : Keithley),
      (∀ s i, i ∈ l → P s → P (g s i).1 ∧ (g s i).2.all Q = true) →
      P st → P (runSteps g st l).1 ∧ (runSteps g st l).2.all Q = true
  | [], _, _, hP => ⟨hP, rfl⟩
  | i :: is, st, h, hP => by
      have h1 := h st i (List.mem_cons_self i is) hP
      have h2 := runSteps_inv_all g P Q is (g st i).1
        (fun s j hj => h s j (List.mem_cons_of_mem i hj)) h1.1
      simp only [runSteps, List.all_append]
      exact ⟨h2.1, by simp [h1.2, h2.2]⟩

/-! ### Trace bookkeeping for the `save` signal -/

theorem savesOf_append (e1 e2 : List Event) :
    savesOf (e1 ++ e2) = savesOf e1 ++ savesOf e2 :=
  List.filterMap_append e1 e2 saveIdx

theorem repTail_saves (st : Keithley) (r : Nat) :
    savesOf (Keithley.repTail st r) = [r] := by
  unfold Keithley.repTail savesOf
  split <;> rfl

theorem sweepPoints_saves (instr : Instr) (r : Nat) (st : Keithley) :
    savesOf (Keithley.sweepPoints instr r st).2 = [] :=
  runSteps_filterMap_none _ saveIdx _ st (fun _ _ _ => rfl)

theorem repStep_saves (instr : Instr) (stopReq : Nat → Bool) (st : Keithley) (r : Nat) :
    savesOf (Keithley.repStep instr stopReq st r).2 = [r] := by
  unfold Keithley.repStep
  by_cases hd : st.gpib_port = "dummy"
  · simp only [hd, if_pos]
    rw [savesOf_append, repTail_saves]
    rfl
  · simp only [hd, if_neg, ite_false]
    rw [savesOf_append, repTail_saves, sweepPoints_saves]
    rfl

theorem bgPass_saves (instr : Instr) (stopReq : Nat → Bool) (st : Keithley) :
    savesOf (Keithley.bgPass instr stopReq st).2 = List.range st.repetitions :=
  runSteps_filterMap_single _ saveIdx _ st (fun s r _ => repStep_saves instr stopReq s r)

theorem config_saves (instr : Instr) (ka : Option Nat) (kc : Option ℚ) (st : Keithley) :
    savesOf (Keithley.config_keithley instr ka kc st).2 = [] := by
  unfold Keithley.config_keithley
  split <;> [rfl; split <;> rfl]

/-- `config_keithley` leaves the sweep plan, the sample buffers and the
lifecycle flags untouched (only `gpib_port`, `averages` and `sourcemeter`
can change). -/
theorem config_core (instr : Instr) (ka : Option Nat) (kc : Option ℚ) (st : Keithley) :
    (Keithley.config_keithley instr ka kc st).1.is_run = st.is_run ∧
    (Keithley.config_keithley instr ka kc st).1.repetitions = st.repetitions ∧
    (Keithley.config_keithley instr ka kc st).1.n_data_points = st.n_data_points ∧
    (Keithley.config_keithley instr ka kc st).1.gpib_thread = st.gpib_thread ∧
    (Keithley.config_keithley instr ka kc st).1.voltages_set = st.voltages_set ∧
    (Keithley.config_keithley instr ka kc st).1.times = st.times ∧
    (Keithley.config_keithley instr ka kc st).1.voltages = st.voltages ∧
    (Keithley.config_keithley instr ka kc st).1.currents = st.currents ∧
    (Keithley.config_keithley instr ka kc st).1.currents_std = st.currents_std ∧
    (Keithley.config_keithley instr ka kc st).1.resistances = st.resistances ∧
    (Keithley.config_keithley instr ka kc st).1.powers = st.powers := by
  unfold Keithley.config_keithley
  split
  · exact ⟨rfl, rfl, rfl, rfl, rfl, rfl, rfl, rfl, rfl, rfl, rfl⟩
  · split <;> exact ⟨rfl, rfl, rfl, rfl, rfl, rfl, rfl, rfl, rfl, rfl, rfl⟩

/-- `np.linspace` always returns exactly `num` samples. -/
theorem length_linspace (a b : ℚ) (num : Nat) : (linspace a b num).length = num := by
  by_cases h0 : num = 0
  · subst h0; rfl
  · by_cases h1 : num = 1
    · subst h1; rfl
    · rw [linspace, if_neg h0, if_neg h1, List.length_map, List.length_range]

/-! ### Concrete fixtures used by counterexamples and witnesses -/

/-- The spec's simulation scenario: `n_points = 5`, `repetitions = 2`,
`min_excitation = 0`, `max_excitation = 1`, dummy (simulation) port. -/
def stScn : Keithley := Keithley.init "dummy" 5 5 2 2 (1/4) 0 1 (1/2)

/-- An instrument whose connection attempt fails (VisaIOError); readings
are never consulted in dummy mode. -/
def instrD : Instr := ⟨false, fun _ _ => 0, fun _ _ => 0, fun _ _ => 0, fun _ _ => 0⟩

/-- A healthy instrument: connection succeeds, clock reads 7, mean voltage
3, mean current 2, std current 0 at every point. -/
def instrW : Instr := ⟨true, fun _ _ => 7, fun _ _ => 3, fun _ _ => 2, fun _ _ => 0⟩

/-- A stop-request schedule that requests a stop during repetition 0. -/
def stopAt0 : Nat → Bool := fun r => r == 0

/-! ### C1 -/

/-- C1 (counterexample): in the 2-repetition simulation run, a stop is
requested during repetition 0 (`stopAt0 0 = true`, so `is_run` is `false`
at the top of repetition 1), yet the `save` trace still contains both
repetition 0 and repetition 1 — the task starts repetition `k+1` even
though a stop was requested during repetition `k`, refuting the claim. -/
theorem Keithley.stop_request_does_not_prevent_next_repetition :
    stopAt0 0 = true ∧
      savesOf (Keithley.background_thread instrD stopAt0 stScn).2 = [0, 1] := by
  constructor
  · rfl
  · decide

/-- C1 (amended): the stop-request flag is consulted only at the top of
the outer `while` pass, before any repetition has started.  For every stop
schedule, a task that starts with `is_run = true` emits the
repetition-complete events of all `repetitions` repetitions — no stop
request arriving during the pass prevents any later repetition — while a
task entered with `is_run = false` runs no repetition at all. -/
theorem Keithley.stop_checked_only_at_pass_top (instr : Instr) (stopReq : Nat → Bool)
    (st : Keithley) :
    savesOf (Keithley.background_thread instr stopReq st).2 =
      if st.is_run then List.range st.repetitions else [] := by
  have hc := config_core instr none none st
  cases hb : (Keithley.config_keithley instr none none st).1.is_run
  case false =>
    have hst : st.is_run = false := by rw [← hc.1, hb]
    simp only [Keithley.background_thread, hb, Bool.false_eq_true, if_false, hst,
      config_saves]
  case true =>
    have hst : st.is_run = true := by rw [← hc.1, hb]
    simp only [Keithley.background_thread, hb, if_true, hst]
    rw [savesOf_append, config_saves, bgPass_saves, hc.2.1]
    rfl

/-! ### C4 -/

/-- C4 (counterexample): in the `n_points = 5`, `repetitions = 2`
simulation scenario the two `save` (repetition_done) events carry the
0-based values `0` and `1` — not `1` and `2` as the claim states
(the 1-based numbers appear only in the "Finished curve #…" log text). -/
theorem Keithley.repetition_done_events_are_zero_based :
    savesOf (Keithley.background_thread instrD (fun _ => false) stScn).2 = [0, 1] ∧
      ([0, 1] : List Nat) ≠ [1, 2] := by
  constructor
  · decide
  · decide

/-- C4 (amended): a run that starts with `is_run = true` and receives no
stop request emits exactly `repetitions` repetition-complete events, in
strictly increasing order, carrying the 0-based values `0 … repetitions-1`;
in the `n_points = 5`, `repetitions = 2` simulation scenario the two events
carry `0` and `1`. -/
theorem Keithley.repetition_done_events_exact (instr : Instr) (st : Keithley)
    (h : st.is_run = true) :
    savesOf (Keithley.background_thread instr (fun _ => false) st).2 =
        List.range st.repetitions ∧
      List.Pairwise (fun a b => a < b)
        (savesOf (Keithley.background_thread instr (fun _ => false) st).2) ∧
      (savesOf (Keithley.background_thread instr (fun _ => false) st).2).length =
        st.repetitions ∧
      savesOf (Keithley.background_thread instrD (fun _ => false) stScn).2 = [0, 1] := by
  have hc := config_core instr none none st
  have hrun : (Keithley.config_keithley instr none none st).1.is_run = true := by
    rw [hc.1, h]
  have hs : savesOf (Keithley.background_thread instr (fun _ => false) st).2 =
      List.range st.repetitions := by
    simp only [Keithley.background_thread, hrun, if_true]
    rw [savesOf_append, config_saves, bgPass_saves, hc.2.1]
    rfl
  refine ⟨hs, ?_, ?_, by decide⟩
  · rw [hs]; exact List.pairwise_lt_range st.repetitions
  · rw [hs]; exact List.length_range st.repetitions

/-- C4 (witness): the amended theorem applied to the simulation scenario,
whose `is_run` flag is `true` at construction. -/
theorem Keithley.repetition_done_events_exact_witness :
    savesOf (Keithley.background_thread instrD (fun _ => false) stScn).2 =
        List.range stScn.repetitions ∧
      List.Pairwise (fun a b => a < b)
        (savesOf (Keithley.background_thread instrD (fun _ => false) stScn).2) ∧
      (savesOf (Keithley.background_thread instrD (fun _ => false) stScn).2).length =
        stScn.repetitions ∧
      savesOf (Keithley.background_thread instrD (fun _ => false) stScn).2 = [0, 1] :=
  Keithley.repetition_done_events_exact instrD stScn (by decide)

/-! ### C2 -/

/-- A controller in non-simulation mode that has connected and spawned its
thread, as it stands when `close` is first called. -/
def stC2 : Keithley :=
  { Keithley.init "GPIB::24" 2 5 1 2 (1/4) 0 1 (1/2) with
      sourcemeter := true, gpib_thread := true }

/-- C2 (counterexample): calling `close` a second time on a non-simulation
controller that `close` already stopped performs a second
`sourcemeter.shutdown()` and emits a second disconnect log event —
the claim's "no second disconnect log event and no second instrument
shutdown" is false. -/
theorem Keithley.second_close_repeats_shutdown :
    shutdownCount (Keithley.close ((Keithley.close stC2).1)).2 = 1 ∧
      Event.log (disconnectedMsg) ∈ (Keithley.close ((Keithley.close stC2).1)).2 := by
  constructor
  · decide
  · decide

/-- C2 (amended): `close` clears the stop flag and joins the background
task; calling it a second time is safe but repeats the first call's
observable behaviour exactly — a no-op only in simulation ('dummy') mode,
while in instrument mode every call performs the shutdown and emits the
disconnect log again. -/
theorem Keithley.close_not_idempotent_outside_dummy (st : Keithley) :
    (Keithley.close ((Keithley.close st).1)).2 = (Keithley.close st).2 ∧
      (Keithley.close st).1.is_run = false ∧
      ((Keithley.close st).2 = [] ↔ st.gpib_port = "dummy") := by
  unfold Keithley.close
  by_cases hd : st.gpib_port = "dummy"
  · simp [hd]
  · simp [hd]

/-! ### C3 -/

/-- The state of a non-simulation controller after a completed 1-point
run against `instrW`: its `currents` buffer holds the measured value
`-2`, not zero. -/
def stRun : Keithley :=
  (Keithley.background_thread instrW (fun _ => false)
    (Keithley.init "GPIB::5" 1 5 1 2 (1/4) 0 1 (1/2))).1

/-- C3 (counterexample): calling `config_keithley` on a controller whose
buffers hold data from a previous sweep leaves the `currents` buffer at
the measured value `-2` instead of resetting it to all-zero, refuting the
claim that every `configure` call resets the SampleBuffer. -/
theorem Keithley.config_does_not_reset_buffers :
    (Keithley.config_keithley instrW none none stRun).1.currents = [PyF.fin (-2)] ∧
      PyF.fin (-2) ≠ PyF.fin 0 := by
  constructor
  · simp +decide [stRun, Keithley.background_thread, Keithley.bgPass, Keithley.repStep,
      Keithley.sweepPoints, Keithley.measurePoint, Keithley.repTail, runSteps,
      Keithley.config_keithley, Keithley.init, linspace, instrW, List.range_succ]
  · intro h
    simp only [PyF.fin.injEq] at h
    norm_num at h

/-- C3 (amended): the SweepPlan and the zeroed SampleBuffer are produced
once, by the constructor — `voltages_set` is the linear sequence and all
six sample sequences are all-zero of that length — and `config_keithley`
never recomputes `voltages_set` nor resets any of the six sample
sequences, whatever its options. -/
theorem Keithley.plan_and_buffers_made_only_at_construction (instr : Instr)
    (ka : Option Nat) (kc : Option ℚ) (st : Keithley) (p : String)
    (n a r : Nat) (rd d mn mx cc : ℚ) :
    (Keithley.config_keithley instr ka kc st).1.voltages_set = st.voltages_set ∧
      (Keithley.config_keithley instr ka kc st).1.times = st.times ∧
      (Keithley.config_keithley instr ka kc st).1.voltages = st.voltages ∧
      (Keithley.config_keithley instr ka kc st).1.currents = st.currents ∧
      (Keithley.config_keithley instr ka kc st).1.currents_std = st.currents_std ∧
      (Keithley.config_keithley instr ka kc st).1.resistances = st.resistances ∧
      (Keithley.config_keithley instr ka kc st).1.powers = st.powers ∧
      (Keithley.init p n a r rd d mn mx cc).voltages_set = linspace mn mx n ∧
      (Keithley.init p n a r rd d mn mx cc).times = List.replicate n (PyF.fin 0) ∧
      (Keithley.init p n a r rd d mn mx cc).voltages = List.replicate n (PyF.fin 0) ∧
      (Keithley.init p n a r rd d mn mx cc).currents = List.replicate n (PyF.fin 0) ∧
      (Keithley.init p n a r rd d mn mx cc).currents_std = List.replicate n (PyF.fin 0) ∧
      (Keithley.init p n a r rd d mn mx cc).resistances = List.replicate n (PyF.fin 0) ∧
      (Keithley.init p n a r rd d mn mx cc).powers = List.replicate n (PyF.fin 0) := by
  have hc := config_core instr ka kc st
  have hlen : (linspace mn mx n).length = n := length_linspace mn mx n
  refine ⟨hc.2.2.2.2.1, hc.2.2.2.2.2.1, hc.2.2.2.2.2.2.1, hc.2.2.2.2.2.2.2.1,
    hc.2.2.2.2.2.2.2.2.1, hc.2.2.2.2.2.2.2.2.2.1, hc.2.2.2.2.2.2.2.2.2.2, rfl,
    ?_, ?_, ?_, ?_, ?_, ?_⟩ <;>
    simp [Keithley.init, hlen]

/-! ### C7 -/

/-- Entry `i` of an `np.linspace` sequence with at least two samples. -/
theorem linspace_getD (a b : ℚ) (num : Nat) (h2 : 2 ≤ num) (i : Nat) (hi : i < num) :
    (linspace a b num).getD i 0 = a + (b - a) * (i : ℚ) / ((num : ℚ) - 1) := by
  have h0 : ¬num = 0 := by omega
  have h1 : ¬num = 1 := by omega
  rw [linspace, if_neg h0, if_neg h1, List.getD_eq_getElem?_getD, List.getElem?_map,
    List.getElem?_range hi]
  rfl

/-- C7 (counterexample): for the valid configuration `n_points = 1`,
`min_excitation = 0`, `max_excitation = 1`, the sweep plan is the single
sample `[0]` — its last entry is the minimum, not the maximum, refuting
the claim for `n_points = 1`. -/
theorem Keithley.single_point_plan_misses_max :
    (Keithley.init "dummy" 1 5 1 2 (1/4) 0 1 (1/2)).voltages_set = [0] ∧
      (Keithley.init "dummy" 1 5 1 2 (1/4) 0 1 (1/2)).max_voltage = 1 ∧
      (0 : ℚ) ≠ 1 := by
  refine ⟨rfl, rfl, by norm_num⟩

/-- C7 (amended): for `n_points ≥ 2` the sweep plan has exactly
`n_points` entries, starts at `min_excitation`, ends at `max_excitation`
and is linearly spaced (all consecutive differences equal
`(max - min)/(n_points - 1)`); for `n_points = 1` it is the single sample
`[min_excitation]`, which misses `max_excitation` whenever the bounds
differ. -/
theorem Keithley.sweep_plan_linear (p : String) (n a r : Nat) (rd d mn mx cc : ℚ) :
    (2 ≤ n →
      ((Keithley.init p n a r rd d mn mx cc).voltages_set.length = n ∧
        (Keithley.init p n a r rd d mn mx cc).voltages_set.getD 0 0 = mn ∧
        (Keithley.init p n a r rd d mn mx cc).voltages_set.getD (n - 1) 0 = mx ∧
        ∀ i : Nat, i + 1 < n →
          (Keithley.init p n a r rd d mn mx cc).voltages_set.getD (i + 1) 0 -
              (Keithley.init p n a r rd d mn mx cc).voltages_set.getD i 0 =
            (mx - mn) / ((n : ℚ) - 1))) ∧
    (n = 1 → (Keithley.init p n a r rd d mn mx cc).voltages_set = [mn]) := by
  have hv : (Keithley.init p n a r rd d mn mx cc).voltages_set = linspace mn mx n := rfl
  constructor
  · intro h2
    have hn2 : (2 : ℚ) ≤ (n : ℚ) := by exact_mod_cast h2
    have hd : ((n : ℚ) - 1) ≠ 0 := by intro hc; linarith
    refine ⟨?_, ?_, ?_, ?_⟩
    · rw [hv, length_linspace]
    · rw [hv, linspace_getD mn mx n h2 0 (by omega)]
      norm_num
    · rw [hv, linspace_getD mn mx n h2 (n - 1) (by omega)]
      have hc : ((n - 1 : Nat) : ℚ) = (n : ℚ) - 1 := by
        have h1 : 1 ≤ n := by omega
        push_cast [h1]
        ring
      rw [hc, mul_div_assoc, div_self hd, mul_one]
      ring
    · intro i hi
      rw [hv, linspace_getD mn mx n h2 (i + 1) (by omega),
        linspace_getD mn mx n h2 i (by omega)]
      push_cast
      field_simp
      ring
  · intro h1
    subst h1
    rw [hv]
    rfl

/-- C7 (witness): the amended theorem at the spec's scenario
(`n_points = 5`, bounds 0 and 1): five entries, first 0, last 1, and the
first consecutive difference is `1/4`. -/
theorem Keithley.sweep_plan_linear_witness :
    (Keithley.init "dummy" 5 5 2 2 (1/4) 0 1 (1/2)).voltages_set.length = 5 ∧
      (Keithley.init "dummy" 5 5 2 2 (1/4) 0 1 (1/2)).voltages_set.getD 0 0 = 0 ∧
      (Keithley.init "dummy" 5 5 2 2 (1/4) 0 1 (1/2)).voltages_set.getD (5 - 1) 0 = 1 ∧
      (Keithley.init "dummy" 5 5 2 2 (1/4) 0 1 (1/2)).voltages_set.getD (0 + 1) 0 -
          (Keithley.init "dummy" 5 5 2 2 (1/4) 0 1 (1/2)).voltages_set.getD 0 0 =
        (1 - 0) / ((5 : ℚ) - 1) := by
  have h := (Keithley.sweep_plan_linear "dummy" 5 5 2 2 (1/4) 0 1 (1/2)).1 (by omega)
  exact ⟨h.1, h.2.1, h.2.2.1, h.2.2.2 0 (by omega)⟩

/-! ### C5 -/

/-- A repetition step never changes `gpib_port` once it is `'dummy'`. -/
theorem repStep_port_dummy (instr : Instr) (stopReq : Nat → Bool) (s : Keithley) (r : Nat)
    (h : s.gpib_port = "dummy") :
    (Keithley.repStep instr stopReq s r).1.gpib_port = "dummy" := by
  unfold Keithley.repStep
  simp only [h, if_pos]
  split <;> rfl

/-- In dummy mode `config_keithley` returns the state unchanged. -/
theorem config_dummy_id (instr : Instr) (ka : Option Nat) (kc : Option ℚ) (st : Keithley)
    (h : st.gpib_port = "dummy") :
    (Keithley.config_keithley instr ka kc st).1 = st := by
  unfold Keithley.config_keithley
  simp [h]

/-- Once `gpib_port` is `'dummy'`, no controller operation changes it. -/
theorem applyOp_port_dummy (instr : Instr) (op : Op) (st : Keithley)
    (h : st.gpib_port = "dummy") : (applyOp instr st op).1.gpib_port = "dummy" := by
  cases op with
  | config ka kc =>
      show (Keithley.config_keithley instr ka kc st).1.gpib_port = "dummy"
      rw [config_dummy_id instr ka kc st h]
      exact h
  | start =>
      show (Keithley.read_keithley_start st).1.gpib_port = "dummy"
      unfold Keithley.read_keithley_start
      simp only [h]
      split <;> rfl
  | close =>
      show (Keithley.close st).1.gpib_port = "dummy"
      unfold Keithley.close
      simp only [h]
      split <;> rfl
  | bg stopReq =>
      show (Keithley.background_thread instr stopReq st).1.gpib_port = "dummy"
      unfold Keithley.background_thread
      simp only [config_dummy_id instr none none st h]
      have hpass := runSteps_inv_all (Keithley.repStep instr stopReq)
        (fun s => s.gpib_port = "dummy") (fun _ => true)
        (List.range st.repetitions) st
        (fun s i _ hs => ⟨repStep_port_dummy instr stopReq s i hs, by simp⟩) h
      unfold Keithley.bgPass at hpass ⊢
      split
      · exact hpass.1
      · exact h

/-- Once `gpib_port` is `'dummy'`, it stays `'dummy'` through any sequence
of controller operations. -/
theorem runOps_port_dummy (instr : Instr) :
    ∀ (ops : List Op) (st : Keithley), st.gpib_port = "dummy" →
      (runOps instr st ops).1.gpib_port = "dummy"
  | [], _, h => h
  | op :: ops, st, h =>
      runOps_port_dummy instr ops (applyOp instr st op).1 (applyOp_port_dummy instr op st h)

/-- C5: if the connection attempt in `config_keithley` fails with a
transport error (`VisaIOError`), the controller logs the attempt and the
red failure message, switches `gpib_port` to the `'dummy'` (simulation)
sentinel — and every later operation leaves it there, so the fallback
lasts for the remainder of the controller's life.  `config_keithley`
returns normally in this case (it is a total function of the state): the
failure is never propagated as an exception. -/
theorem Keithley.connect_failure_degrades_to_dummy (instr : Instr) (ka : Option Nat)
    (kc : Option ℚ) (st : Keithley) (h1 : ¬st.gpib_port = "dummy")
    (h2 : instr.connect_ok = false) :
    (Keithley.config_keithley instr ka kc st).1.gpib_port = "dummy" ∧
      (Keithley.config_keithley instr ka kc st).2 =
        [Event.log (tryingMsg st.gpib_port), Event.log (failedMsg st.gpib_port)] ∧
      ∀ ops : List Op,
        (runOps instr (Keithley.config_keithley instr ka kc st).1 ops).1.gpib_port =
          "dummy" := by
  have hfall : (Keithley.config_keithley instr ka kc st).1.gpib_port = "dummy" ∧
      (Keithley.config_keithley instr ka kc st).2 =
        [Event.log (tryingMsg st.gpib_port), Event.log (failedMsg st.gpib_port)] := by
    unfold Keithley.config_keithley
    simp [h1, h2]
  exact ⟨hfall.1, hfall.2, fun ops => runOps_port_dummy instr ops _ hfall.1⟩

/-- C5 (witness): a failing connection on port `GPIB::24` with a start /
background run / close afterwards: the port is `'dummy'` at every stage
and the two log events are emitted. -/
theorem Keithley.connect_failure_degrades_to_dummy_witness :
    (Keithley.config_keithley instrD none none
        (Keithley.init "GPIB::24" 2 5 1 2 (1/4) 0 1 (1/2))).1.gpib_port = "dummy" ∧
      (Keithley.config_keithley instrD none none
          (Keithley.init "GPIB::24" 2 5 1 2 (1/4) 0 1 (1/2))).2 =
        [Event.log (tryingMsg "GPIB::24"), Event.log (failedMsg "GPIB::24")] ∧
      (runOps instrD
          (Keithley.config_keithley instrD none none
            (Keithley.init "GPIB::24" 2 5 1 2 (1/4) 0 1 (1/2))).1
          [Op.start, Op.bg (fun _ => false), Op.close]).1.gpib_port = "dummy" := by
  have h := Keithley.connect_failure_degrades_to_dummy instrD none none
    (Keithley.init "GPIB::24" 2 5 1 2 (1/4) 0 1 (1/2)) (by decide) (by decide)
  exact ⟨h.1, h.2.1, h.2.2 [Op.start, Op.bg (fun _ => false), Op.close]⟩

/-! ### C6 -/

/-- 1 if the controller currently owns a background thread, else 0. -/
def threadBit (st : Keithley) : Nat := if st.gpib_thread then 1 else 0

/-- A trace whose events are all non-spawn contains zero spawns. -/
theorem spawnCount_eq_zero (es : List Event) (h : es.all (fun e => !isSpawn e) = true) :
    spawnCount es = 0 := by
  unfold spawnCount
  rw [List.countP_eq_zero]
  intro a ha
  have hh := List.all_eq_true.mp h a ha
  simp only [Bool.not_eq_true'] at hh
  simp [hh]

/-- The measurement step never touches the thread handle and never spawns. -/
theorem measurePoint_thread (instr : Instr) (r : Nat) (st : Keithley) (dp : Nat) :
    (Keithley.measurePoint instr r st dp).1.gpib_thread = st.gpib_thread := rfl

/-- The inner point loop never touches the thread handle and emits only
`update` events. -/
theorem sweepPoints_thread (instr : Instr) (r : Nat) (st : Keithley) :
    (Keithley.sweepPoints instr r st).1.gpib_thread = st.gpib_thread ∧
      (Keithley.sweepPoints instr r st).2.all (fun e => !isSpawn e) = true :=
  runSteps_inv_all (Keithley.measurePoint instr r)
    (fun x => x.gpib_thread = st.gpib_thread) (fun e => !isSpawn e)
    (List.range st.n_data_points) st (fun _ _ _ hx => ⟨hx, rfl⟩) rfl

/-- `spawnCount` distributes over trace concatenation. -/
theorem spawnCount_append (a b : List Event) :
    spawnCount (a ++ b) = spawnCount a + spawnCount b :=
  List.countP_append isSpawn a b

/-- The post-repetition events (`save`, logs) contain no spawn. -/
theorem repTail_no_spawn (s : Keithley) (r : Nat) :
    (Keithley.repTail s r).all (fun e => !isSpawn e) = true := by
  unfold Keithley.repTail
  split <;> rfl

/-- A repetition step never touches the thread handle and never spawns. -/
theorem repStep_thread (instr : Instr) (stopReq : Nat → Bool) (s : Keithley) (r : Nat) :
    (Keithley.repStep instr stopReq s r).1.gpib_thread = s.gpib_thread ∧
      (Keithley.repStep instr stopReq s r).2.all (fun e => !isSpawn e) = true := by
  have hsw := sweepPoints_thread instr r s
  unfold Keithley.repStep
  by_cases hd : s.gpib_port = "dummy"
  · simp only [if_pos hd]
    constructor
    · split <;> rfl
    · simp [repTail_no_spawn]
  · simp only [if_neg hd]
    constructor
    · split
      · exact hsw.1
      · exact hsw.1
    · simp [List.all_append, hsw.2, repTail_no_spawn]

/-- The background thread function itself neither spawns a thread nor
changes the thread handle. -/
theorem background_thread_thread (instr : Instr) (stopReq : Nat → Bool) (st : Keithley) :
    (Keithley.background_thread instr stopReq st).1.gpib_thread = st.gpib_thread ∧
      spawnCount (Keithley.background_thread instr stopReq st).2 = 0 := by
  have hc := (config_core instr none none st).2.2.2.1
  have hcz : spawnCount (Keithley.config_keithley instr none none st).2 = 0 := by
    unfold Keithley.config_keithley
    split
    · rfl
    · split <;> rfl
  have hpass := runSteps_inv_all (Keithley.repStep instr stopReq)
    (fun x => x.gpib_thread = st.gpib_thread) (fun e => !isSpawn e)
    (List.range (Keithley.config_keithley instr none none st).1.repetitions)
    (Keithley.config_keithley instr none none st).1
    (fun x i _ hx => ⟨(repStep_thread instr stopReq x i).1.trans hx,
      (repStep_thread instr stopReq x i).2⟩) hc
  cases hb : (Keithley.config_keithley instr none none st).1.is_run
  case false =>
    simp only [Keithley.background_thread, hb, Bool.false_eq_true, if_false]
    exact ⟨hc, hcz⟩
  case true =>
    simp only [Keithley.background_thread, Keithley.bgPass, hb, if_true]
    constructor
    · exact hpass.1
    · rw [spawnCount_append, hcz, spawnCount_eq_zero _ hpass.2]

/-- One operation's spawn count balances the thread-ownership indicator:
spawns happen exactly on the `none → some` transition of `gpib_thread`. -/
theorem applyOp_spawn (instr : Instr) (op : Op) (st : Keithley) :
    spawnCount (applyOp instr st op).2 + threadBit st = threadBit (applyOp instr st op).1 := by
  cases op with
  | config ka kc =>
      have hc := (config_core instr ka kc st).2.2.2.1
      have hz : spawnCount (Keithley.config_keithley instr ka kc st).2 = 0 := by
        unfold Keithley.config_keithley
        split
        · rfl
        · split <;> rfl
      show spawnCount (Keithley.config_keithley instr ka kc st).2 + threadBit st =
        threadBit (Keithley.config_keithley instr ka kc st).1
      rw [hz, threadBit, threadBit, hc]
      omega
  | start =>
      show spawnCount (Keithley.read_keithley_start st).2 + threadBit st =
        threadBit (Keithley.read_keithley_start st).1
      unfold Keithley.read_keithley_start threadBit
      by_cases hb : st.gpib_thread = true <;> simp [hb, spawnCount, isSpawn]
  | close =>
      show spawnCount (Keithley.close st).2 + threadBit st = threadBit (Keithley.close st).1
      unfold Keithley.close threadBit
      by_cases hb : st.gpib_port = "dummy" <;> by_cases ht : st.gpib_thread = true <;>
        simp [hb, ht, spawnCount, isSpawn]
  | bg stopReq =>
      have hbg := background_thread_thread instr stopReq st
      show spawnCount (Keithley.background_thread instr stopReq st).2 + threadBit st =
        threadBit (Keithley.background_thread instr stopReq st).1
      rw [hbg.2, threadBit, threadBit, hbg.1]
      omega

/-- Spawn counting extended over operation sequences. -/
theorem runOps_spawn (instr : Instr) :
    ∀ (ops : List Op) (st : Keithley),
      spawnCount (runOps instr st ops).2 + threadBit st =
        threadBit (runOps instr st ops).1
  | [], st => by simp [runOps, spawnCount]
  | op :: ops, st => by
      have h1 := applyOp_spawn instr op st
      have h2 := runOps_spawn instr ops (applyOp instr st op).1
      unfold runOps
      simp only [spawnCount_append]
      omega

/-- C6: `start` is idempotent — a second `read_keithley_start` on a
controller that already owns its thread emits no `spawn` — and over any
sequence of operations on a freshly constructed controller at most one
background thread is ever spawned (the `gpib_thread is None` check, never
reset, guards the spawn). -/
theorem Keithley.at_most_one_spawn (instr : Instr) (p : String) (n a r : Nat)
    (rd d mn mx cc : ℚ) (ops : List Op) (st : Keithley) :
    spawnCount (runOps instr (Keithley.init p n a r rd d mn mx cc) ops).2 ≤ 1 ∧
      (Keithley.read_keithley_start ((Keithley.read_keithley_start st).1)).2 = [] := by
  constructor
  · have h := runOps_spawn instr ops (Keithley.init p n a r rd d mn mx cc)
    have h0 : threadBit (Keithley.init p n a r rd d mn mx cc) = 0 := rfl
    have h1 : threadBit (runOps instr (Keithley.init p n a r rd d mn mx cc) ops).1 ≤ 1 := by
      unfold threadBit
      split <;> omega
    omega
  · have ht : (Keithley.read_keithley_start st).1.gpib_thread = true := by
      unfold Keithley.read_keithley_start
      by_cases hb : st.gpib_thread = true <;> simp [hb]
    have hsec : ∀ s : Keithley, s.gpib_thread = true →
        (Keithley.read_keithley_start s).2 = [] := by
      intro s hs
      unfold Keithley.read_keithley_start
      simp [hs]
    exact hsec _ ht

/-! ### C10 -/

/-- All six sample sequences have length `n` and `n_data_points = n`. -/
def BufLen (n : Nat) (st : Keithley) : Prop :=
  st.n_data_points = n ∧ st.times.length = n ∧ st.voltages.length = n ∧
    st.currents.length = n ∧ st.currents_std.length = n ∧ st.resistances.length = n ∧
    st.powers.length = n

/-- Event filter: every `update` (i.e. every buffer write) is at an index
below `n`. -/
def updOK (n : Nat) : Event → Bool
  | .update dp => decide (dp < n)
  | _ => true

/-- A buffer write (`List.set`) never resizes any of the six sequences. -/
theorem measurePoint_buflen (instr : Instr) (r : Nat) (st : Keithley) (dp n : Nat)
    (h : BufLen n st) : BufLen n (Keithley.measurePoint instr r st dp).1 := by
  obtain ⟨h1, h2, h3, h4, h5, h6, h7⟩ := h
  exact ⟨h1, by simp [Keithley.measurePoint, List.length_set, h2],
    by simp [Keithley.measurePoint, List.length_set, h3],
    by simp [Keithley.measurePoint, List.length_set, h4],
    by simp [Keithley.measurePoint, List.length_set, h5],
    by simp [Keithley.measurePoint, List.length_set, h6],
    by simp [Keithley.measurePoint, List.length_set, h7]⟩

/-- The inner point loop keeps all lengths and writes only below
`n_data_points`. -/
theorem sweepPoints_buflen (instr : Instr) (r : Nat) (st : Keithley) (n : Nat)
    (h : BufLen n st) :
    BufLen n (Keithley.sweepPoints instr r st).1 ∧
      (Keithley.sweepPoints instr r st).2.all (updOK n) = true := by
  unfold Keithley.sweepPoints
  refine runSteps_inv_all _ (BufLen n) (updOK n) _ _ (fun s i hi hs => ?_) h
  constructor
  · exact measurePoint_buflen instr r s i n hs
  · have hin : i < n := by
      rw [← h.1]
      exact List.mem_range.mp hi
    simp [Keithley.measurePoint, updOK, hin]

/-- A repetition step keeps all lengths and writes only below
`n_data_points`. -/
theorem repStep_buflen (instr : Instr) (stopReq : Nat → Bool) (s : Keithley) (r n : Nat)
    (h : BufLen n s) :
    BufLen n (Keithley.repStep instr stopReq s r).1 ∧
      (Keithley.repStep instr stopReq s r).2.all (updOK n) = true := by
  have hsw := sweepPoints_buflen instr r s n h
  have htail : ∀ s2 : Keithley, (Keithley.repTail s2 r).all (updOK n) = true := by
    intro s2
    unfold Keithley.repTail
    split <;> rfl
  unfold Keithley.repStep
  by_cases hd : s.gpib_port = "dummy"
  · simp only [if_pos hd]
    constructor
    · split <;> exact h
    · simp [htail]
  · simp only [if_neg hd]
    constructor
    · split <;> exact hsw.1
    · simp [List.all_append, hsw.2, htail]

/-- `config_keithley` keeps all lengths. -/
theorem config_buflen (instr : Instr) (ka : Option Nat) (kc : Option ℚ) (st : Keithley)
    (n : Nat) (h : BufLen n st) :
    BufLen n (Keithley.config_keithley instr ka kc st).1 := by
  obtain ⟨-, -, hn, -, -, ht, hv, hcu, hcs, hre, hpo⟩ := config_core instr ka kc st
  exact ⟨hn.trans h.1, by rw [ht]; exact h.2.1, by rw [hv]; exact h.2.2.1,
    by rw [hcu]; exact h.2.2.2.1, by rw [hcs]; exact h.2.2.2.2.1,
    by rw [hre]; exact h.2.2.2.2.2.1, by rw [hpo]; exact h.2.2.2.2.2.2⟩

/-- Every controller operation keeps all lengths and only ever writes the
buffers at indices below `n_data_points`. -/
theorem applyOp_buflen (instr : Instr) (op : Op) (st : Keithley) (n : Nat)
    (h : BufLen n st) :
    BufLen n (applyOp instr st op).1 ∧ (applyOp instr st op).2.all (updOK n) = true := by
  cases op with
  | config ka kc =>
      refine ⟨config_buflen instr ka kc st n h, ?_⟩
      show (Keithley.config_keithley instr ka kc st).2.all (updOK n) = true
      unfold Keithley.config_keithley
      split
      · rfl
      · split <;> rfl
  | start =>
      constructor
      · show BufLen n (Keithley.read_keithley_start st).1
        unfold Keithley.read_keithley_start
        dsimp only
        split <;> exact h
      · show (Keithley.read_keithley_start st).2.all (updOK n) = true
        unfold Keithley.read_keithley_start
        dsimp only
        split <;> rfl
  | close =>
      constructor
      · show BufLen n (Keithley.close st).1
        unfold Keithley.close
        dsimp only
        split <;> exact h
      · show (Keithley.close st).2.all (updOK n) = true
        unfold Keithley.close
        dsimp only
        split <;> rfl
  | bg stopReq =>
      have hcfg := config_buflen instr none none st n h
      have hcz : (Keithley.config_keithley instr none none st).2.all (updOK n) = true := by
        unfold Keithley.config_keithley
        split
        · rfl
        · split <;> rfl
      have hpass := runSteps_inv_all (Keithley.repStep instr stopReq) (BufLen n) (updOK n)
        (List.range (Keithley.config_keithley instr none none st).1.repetitions)
        (Keithley.config_keithley instr none none st).1
        (fun x i _ hx => repStep_buflen instr stopReq x i n hx) hcfg
      show BufLen n (Keithley.background_thread instr stopReq st).1 ∧
        (Keithley.background_thread instr stopReq st).2.all (updOK n) = true
      cases hb : (Keithley.config_keithley instr none none st).1.is_run
      case false =>
        simp only [Keithley.background_thread, hb, Bool.false_eq_true, if_false]
        exact ⟨hcfg, hcz⟩
      case true =>
        simp only [Keithley.background_thread, Keithley.bgPass, hb, if_true]
        constructor
        · exact hpass.1
        · rw [List.all_append, hcz, hpass.2]
          rfl

/-- Length preservation and write-boundedness over operation sequences. -/
theorem runOps_buflen (instr : Instr) (n : Nat) :
    ∀ (ops : List Op) (st : Keithley), BufLen n st →
      BufLen n (runOps instr st ops).1 ∧ (runOps instr st ops).2.all (updOK n) = true
  | [], _, h => ⟨h, rfl⟩
  | op :: ops, st, h => by
      have h1 := applyOp_buflen instr op st n h
      have h2 := runOps_buflen instr n ops (applyOp instr st op).1 h1.1
      unfold runOps
      dsimp only
      refine ⟨h2.1, ?_⟩
      rw [List.all_append, h1.2, h2.2]
      rfl

/-- Bounded `update` payloads: from an all-events bound to the extracted
index list. -/
theorem updatesOf_all_bound (n : Nat) :
    ∀ es : List Event, es.all (updOK n) = true →
      (updatesOf es).all (fun dp => decide (dp < n)) = true
  | [], _ => rfl
  | e :: es, h => by
      rw [List.all_cons, Bool.and_eq_true] at h
      have h1 : updOK n e = true := h.1
      have h2 := updatesOf_all_bound n es h.2
      cases e with
      | update dp =>
          show ((Event.update dp :: es).filterMap updIdx).all _ = true
          simp only [List.filterMap_cons]
          show (List.cons dp (es.filterMap updIdx)).all _ = true
          rw [List.all_cons, Bool.and_eq_true]
          exact ⟨h1, h2⟩
      | save r => exact h2
      | log m => exact h2
      | spawn => exact h2
      | shutdown => exact h2

/-- A freshly constructed controller satisfies `BufLen`. -/
theorem init_buflen (p : String) (n a r : Nat) (rd d mn mx cc : ℚ) :
    BufLen n (Keithley.init p n a r rd d mn mx cc) := by
  have hl := length_linspace mn mx n
  exact ⟨rfl, by simp [Keithley.init, List.length_replicate, hl],
    by simp [Keithley.init, List.length_replicate, hl],
    by simp [Keithley.init, List.length_replicate, hl],
    by simp [Keithley.init, List.length_replicate, hl],
    by simp [Keithley.init, List.length_replicate, hl],
    by simp [Keithley.init, List.length_replicate, hl]⟩

/-- C10: from construction onward, through any sequence of controller
operations, all six sample sequences keep length `n_data_points`, and
every buffer write performed by the background task (each paired with its
`update` event at the same index) is at an index `dp < n_data_points` —
no operation resizes a buffer or writes out of bounds. -/
theorem Keithley.buffers_fixed_size_and_writes_in_bounds (instr : Instr) (p : String)
    (n a r : Nat) (rd d mn mx cc : ℚ) (ops : List Op) :
    (runOps instr (Keithley.init p n a r rd d mn mx cc) ops).1.times.length = n ∧
      (runOps instr (Keithley.init p n a r rd d mn mx cc) ops).1.voltages.length = n ∧
      (runOps instr (Keithley.init p n a r rd d mn mx cc) ops).1.currents.length = n ∧
      (runOps instr (Keithley.init p n a r rd d mn mx cc) ops).1.currents_std.length = n ∧
      (runOps instr (Keithley.init p n a r rd d mn mx cc) ops).1.resistances.length = n ∧
      (runOps instr (Keithley.init p n a r rd d mn mx cc) ops).1.powers.length = n ∧
      (updatesOf (runOps instr (Keithley.init p n a r rd d mn mx cc) ops).2).all
          (fun dp => decide (dp < n)) = true := by
  have h := runOps_buflen instr n ops (Keithley.init p n a r rd d mn mx cc)
    (init_buflen p n a r rd d mn mx cc)
  exact ⟨h.1.2.1, h.1.2.2.1, h.1.2.2.2.1, h.1.2.2.2.2.1, h.1.2.2.2.2.2.1,
    h.1.2.2.2.2.2.2, updatesOf_all_bound n _ h.2⟩

/-! ### C8 and C9 -/

/-- Reading back the entry just written by `List.set`. -/
theorem getD_set_self {α : Type} (l : List α) (dp : Nat) (a x : α) (h : dp < l.length) :
    (l.set dp a).getD dp x = a := by
  rw [List.getD_eq_getElem?_getD, List.getElem?_set_eq_of_lt a h]
  rfl

/-- `List.set` at one index leaves every other entry unchanged. -/
theorem getD_set_ne {α : Type} (l : List α) (i dp : Nat) (a x : α) (h : i ≠ dp) :
    (l.set i a).getD dp x = l.getD dp x := by
  rw [List.getD_eq_getElem?_getD, List.getD_eq_getElem?_getD, List.getElem?_set_ne h]

/-- The source's per-point recording relations at buffer index `dp` of
repetition `r`: `voltages[dp]` holds the instrument's mean voltage,
`currents[dp] = -mean_current`, `resistances[dp] = abs(voltages[dp] /
currents[dp])` and `powers[dp] = abs(voltages[dp] * currents[dp])`. -/
def recordedAt (instr : Instr) (r : Nat) (st : Keithley) (dp : Nat) : Prop :=
  st.voltages.getD dp PyF.nan = PyF.fin (instr.mean_voltage r dp) ∧
    st.currents.getD dp PyF.nan = PyF.fin (-(instr.mean_current r dp)) ∧
    st.resistances.getD dp PyF.nan =
      ((st.voltages.getD dp PyF.nan).divPF (st.currents.getD dp PyF.nan)).absPF ∧
    st.powers.getD dp PyF.nan =
      ((st.voltages.getD dp PyF.nan).mulPF (st.currents.getD dp PyF.nan)).absPF

/-- The measurement step establishes the recording relations at the index
it writes. -/
theorem measurePoint_recordedAt (instr : Instr) (r : Nat) (st : Keithley) (dp n : Nat)
    (hb : BufLen n st) (hdp : dp < n) :
    recordedAt instr r (Keithley.measurePoint instr r st dp).1 dp := by
  have hv : dp < st.voltages.length := by rw [hb.2.2.1]; exact hdp
  have hcu : dp < st.currents.length := by rw [hb.2.2.2.1]; exact hdp
  have hre : dp < st.resistances.length := by rw [hb.2.2.2.2.2.1]; exact hdp
  have hpo : dp < st.powers.length := by rw [hb.2.2.2.2.2.2]; exact hdp
  unfold recordedAt Keithley.measurePoint
  dsimp only
  refine ⟨getD_set_self _ _ _ _ hv, getD_set_self _ _ _ _ hcu, ?_, ?_⟩
  · rw [getD_set_self _ _ _ _ hre]
  · rw [getD_set_self _ _ _ _ hpo]

/-- The measurement step at a different index preserves the recording
relations at `dp`. -/
theorem measurePoint_recordedAt_ne (instr : Instr) (r r2 : Nat) (st : Keithley)
    (i dp : Nat) (hne : i ≠ dp) (h : recordedAt instr r2 st dp) :
    recordedAt instr r2 (Keithley.measurePoint instr r st i).1 dp := by
  unfold recordedAt at h ⊢
  unfold Keithley.measurePoint
  dsimp only
  rw [getD_set_ne st.voltages i dp _ _ hne, getD_set_ne st.currents i dp _ _ hne,
    getD_set_ne st.resistances i dp _ _ hne, getD_set_ne st.powers i dp _ _ hne]
  exact h

/-- Running the point loop over a duplicate-free list of in-range indices
establishes the recording relations at every index of the list. -/
theorem runSteps_measure_recordedAt (instr : Instr) (r n : Nat) :
    ∀ (l : List Nat) (st : Keithley), BufLen n st → l.Nodup → (∀ i ∈ l, i < n) →
      ∀ dp ∈ l, recordedAt instr r (runSteps (Keithley.measurePoint instr r) st l).1 dp
  | [], _, _, _, _, dp, hdp => absurd hdp (List.not_mem_nil dp)
  | i :: is, st, hb, hnd, hbound, dp, hdp => by
      have hb1 : BufLen n (Keithley.measurePoint instr r st i).1 :=
        measurePoint_buflen instr r st i n hb
      rcases List.mem_cons.mp hdp with heq | hmem
      · subst heq
        have hest : recordedAt instr r (Keithley.measurePoint instr r st dp).1 dp :=
          measurePoint_recordedAt instr r st dp n hb (hbound dp (List.mem_cons_self dp is))
        have hpres := runSteps_inv_all (Keithley.measurePoint instr r)
          (fun s => recordedAt instr r s dp) (fun _ => true) is
          (Keithley.measurePoint instr r st dp).1
          (fun s j hj hs => ⟨measurePoint_recordedAt_ne instr r r s j dp
            (by intro hee; subst hee; exact (List.nodup_cons.mp hnd).1 hj) hs, by simp⟩)
          hest
        exact hpres.1
      · exact runSteps_measure_recordedAt instr r n is (Keithley.measurePoint instr r st i).1
          hb1 (List.nodup_cons.mp hnd).2
          (fun j hj => hbound j (List.mem_cons_of_mem i hj)) dp hmem

/-- After the full inner point loop of repetition `r`, the recording
relations hold at every index below `n_data_points`. -/
theorem sweepPoints_recordedAt (instr : Instr) (r : Nat) (st : Keithley) (n : Nat)
    (hb : BufLen n st) :
    ∀ dp, dp < n → recordedAt instr r (Keithley.sweepPoints instr r st).1 dp := by
  intro dp hdp
  unfold Keithley.sweepPoints
  exact runSteps_measure_recordedAt instr r n (List.range st.n_data_points) st hb
    (List.nodup_range st.n_data_points)
    (fun i hi => by rw [← hb.1]; exact List.mem_range.mp hi)
    dp (List.mem_range.mpr (by rw [hb.1]; exact hdp))

/-- The four buffers of `recordedAt` pass unchanged from the point loop to
the end of the repetition step (only `is_run` / events differ). -/
theorem repStep_buffers_eq_sweep (instr : Instr) (stopReq : Nat → Bool) (st : Keithley)
    (r : Nat) (hport : ¬st.gpib_port = "dummy") :
    (Keithley.repStep instr stopReq st r).1.voltages =
        (Keithley.sweepPoints instr r st).1.voltages ∧
      (Keithley.repStep instr stopReq st r).1.currents =
        (Keithley.sweepPoints instr r st).1.currents ∧
      (Keithley.repStep instr stopReq st r).1.resistances =
        (Keithley.sweepPoints instr r st).1.resistances ∧
      (Keithley.repStep instr stopReq st r).1.powers =
        (Keithley.sweepPoints instr r st).1.powers := by
  unfold Keithley.repStep
  simp only [if_neg hport]
  split <;> exact ⟨rfl, rfl, rfl, rfl⟩

/-- C8: in a real (non-simulation) repetition, for every point index
`dp < n_data_points` the recorded values satisfy
`currents[dp] = -(instrument mean response)`,
`resistances[dp] = abs(voltages[dp] / currents[dp])` and
`powers[dp] = abs(voltages[dp] * currents[dp])`. -/
theorem Keithley.sweep_records_relations (instr : Instr) (stopReq : Nat → Bool)
    (st : Keithley) (r n : Nat) (hport : ¬st.gpib_port = "dummy") (hb : BufLen n st) :
    ∀ dp, dp < n →
      (Keithley.repStep instr stopReq st r).1.currents.getD dp PyF.nan =
          PyF.fin (-(instr.mean_current r dp)) ∧
        (Keithley.repStep instr stopReq st r).1.resistances.getD dp PyF.nan =
          (((Keithley.repStep instr stopReq st r).1.voltages.getD dp PyF.nan).divPF
            ((Keithley.repStep instr stopReq st r).1.currents.getD dp PyF.nan)).absPF ∧
        (Keithley.repStep instr stopReq st r).1.powers.getD dp PyF.nan =
          (((Keithley.repStep instr stopReq st r).1.voltages.getD dp PyF.nan).mulPF
            ((Keithley.repStep instr stopReq st r).1.currents.getD dp PyF.nan)).absPF := by
  intro dp hdp
  have hsw := sweepPoints_recordedAt instr r st n hb dp hdp
  have heq := repStep_buffers_eq_sweep instr stopReq st r hport
  rw [heq.1, heq.2.1, heq.2.2.1, heq.2.2.2]
  exact ⟨hsw.2.1, hsw.2.2.1, hsw.2.2.2⟩

/-- A 1-point real-mode controller fresh from the constructor. -/
def stReal1 : Keithley := Keithley.init "GPIB::24" 1 5 1 2 (1/4) 0 1 (1/2)

/-- C8 (witness): the relations at point 0 of a 1-point sweep against the
healthy instrument `instrW` (mean voltage 3, mean current 2). -/
theorem Keithley.sweep_records_relations_witness :
    (Keithley.repStep instrW (fun _ => false) stReal1 0).1.currents.getD 0 PyF.nan =
        PyF.fin (-(instrW.mean_current 0 0)) ∧
      (Keithley.repStep instrW (fun _ => false) stReal1 0).1.resistances.getD 0 PyF.nan =
        (((Keithley.repStep instrW (fun _ => false) stReal1 0).1.voltages.getD 0
              PyF.nan).divPF
          ((Keithley.repStep instrW (fun _ => false) stReal1 0).1.currents.getD 0
            PyF.nan)).absPF ∧
      (Keithley.repStep instrW (fun _ => false) stReal1 0).1.powers.getD 0 PyF.nan =
        (((Keithley.repStep instrW (fun _ => false) stReal1 0).1.voltages.getD 0
              PyF.nan).mulPF
          ((Keithley.repStep instrW (fun _ => false) stReal1 0).1.currents.getD 0
            PyF.nan)).absPF :=
  Keithley.sweep_records_relations instrW (fun _ => false) stReal1 0 1 (by decide)
    ⟨rfl, rfl, rfl, rfl, rfl, rfl, rfl⟩ 0 (by decide)

/-- `updatesOf` distributes over trace concatenation. -/
theorem updatesOf_append (e1 e2 : List Event) :
    updatesOf (e1 ++ e2) = updatesOf e1 ++ updatesOf e2 :=
  List.filterMap_append e1 e2 updIdx

/-- The inner point loop emits exactly the `update` events `0 … n-1` in
order. -/
theorem sweepPoints_updates (instr : Instr) (r : Nat) (st : Keithley) :
    updatesOf (Keithley.sweepPoints instr r st).2 = List.range st.n_data_points :=
  runSteps_filterMap_single _ updIdx _ st (fun _ _ _ => rfl)

/-- The post-repetition events carry no `update`. -/
theorem repTail_updates (s : Keithley) (r : Nat) :
    updatesOf (Keithley.repTail s r) = [] := by
  unfold Keithley.repTail
  split <;> rfl

/-- A real-mode repetition step emits exactly the `update` events
`0 … n_data_points - 1`. -/
theorem repStep_updates_real (instr : Instr) (stopReq : Nat → Bool) (st : Keithley)
    (r : Nat) (hport : ¬st.gpib_port = "dummy") :
    updatesOf (Keithley.repStep instr stopReq st r).2 = List.range st.n_data_points := by
  unfold Keithley.repStep
  simp only [if_neg hport]
  show updatesOf ((Keithley.sweepPoints instr r st).2 ++
    Keithley.repTail (Keithley.sweepPoints instr r st).1 r) = List.range st.n_data_points
  rw [updatesOf_append, sweepPoints_updates, repTail_updates, List.append_nil]

/-- An instrument whose mean response is identically zero. -/
def instrZ : Instr := ⟨true, fun _ _ => 7, fun _ _ => 3, fun _ _ => 0, fun _ _ => 0⟩

/-- C9: when the instrument's mean response at point `j` is zero, the
repetition still runs to completion — all `n_data_points` per-point
progress events are emitted, the derivation being total — and the
resistance recorded at `j` is a non-finite domain value (`inf`, or `nan`
for 0/0); nothing is raised and the remaining points are still measured. -/
theorem Keithley.zero_response_degenerate_no_crash (instr : Instr) (stopReq : Nat → Bool)
    (st : Keithley) (r n j : Nat) (hport : ¬st.gpib_port = "dummy") (hb : BufLen n st)
    (hj : j < n) (hz : instr.mean_current r j = 0) :
    updatesOf (Keithley.repStep instr stopReq st r).2 = List.range n ∧
      ((Keithley.repStep instr stopReq st r).1.resistances.getD j PyF.nan).isFinite =
        false := by
  constructor
  · rw [repStep_updates_real instr stopReq st r hport, hb.1]
  · have hsw := sweepPoints_recordedAt instr r st n hb j hj
    have heq := repStep_buffers_eq_sweep instr stopReq st r hport
    rw [heq.2.2.1, hsw.2.2.1, hsw.1, hsw.2.1, hz, neg_zero]
    by_cases hv : instr.mean_voltage r j = 0 <;>
      simp [hv, PyF.divPF, PyF.absPF, PyF.isFinite]

/-- C9 (witness): a 1-point sweep against the zero-response instrument
`instrZ`: the single progress event is emitted and the recorded
resistance is non-finite. -/
theorem Keithley.zero_response_degenerate_no_crash_witness :
    updatesOf (Keithley.repStep instrZ (fun _ => false) stReal1 0).2 = List.range 1 ∧
      ((Keithley.repStep instrZ (fun _ => false) stReal1 0).1.resistances.getD 0
          PyF.nan).isFinite = false :=
  Keithley.zero_response_degenerate_no_crash instrZ (fun _ => false) stReal1 0 1 0
    (by decide) ⟨rfl, rfl, rfl, rfl, rfl, rfl, rfl⟩ (by decide) rfl
